import Mathlib

/-!
Verification of the gitlab-upgrade-helper repository
(src/gitlab_upgrade_helper/config.py and cli.py).

The development shallowly embeds the three functions of config.py:

* the pure directive-replacement transformation inside
  modify_gitlab_rb_setting (config.py lines 100-129), embedded as
  modifySetting over documents represented as List Char;
* the local renderer render_template_locally (lines 186-247), with the
  filesystem, the YAML loader and the Jinja engine abstracted as explicit
  input states, and the header/trailing-newline assembly (lines 237-238)
  embedded exactly;
* the remote orchestration of modify_gitlab_rb_setting (lines 47-184)
  and apply_gitlab_rb_template (lines 276-357), embedded as a pure
  function over a small remote-filesystem record, with the outcome of
  each remote command supplied by an explicit oracle (StepOutcomes).

Machine text is modelled as List Char.  Effects (datetime.now, the
remote transport) are explicit parameters.
-/

/-- Characters on which Python str.splitlines breaks a line, apart from
the two-character sequence CR LF which is handled separately.  This is
the full set documented for str.splitlines. -/
def isLineTerm (c : Char) : Bool :=
  c == '\n' || c == '\r' || c == '\x0b' || c == '\x0c' ||
  c == '\x1c' || c == '\x1d' || c == '\x1e' || c == '\x85' ||
  c == '\u2028' || c == '\u2029'

/-- The whitespace class of Python str patterns: characters matched by
the regex class backslash-s and stripped by str.strip().  This is the
set of code points for which str.isspace() holds. -/
def isPySpace (c : Char) : Bool :=
  c == ' ' || c == '\t' || c == '\n' || c == '\r' || c == '\x0b' || c == '\x0c' ||
  c == '\x1c' || c == '\x1d' || c == '\x1e' || c == '\x1f' || c == '\x85' ||
  c == '\xa0' || c == '\u1680' || ('\u2000' ≤ c && c ≤ '\u200a') ||
  c == '\u2028' || c == '\u2029' || c == '\u202f' || c == '\u205f' || c == '\u3000'

/-- Worker for pySplitlines: acc holds the characters of the current
line in reverse; skipLf records that the previous character was a
carriage return, so that an immediately following line feed is part of
the same CR LF break and produces no further line.  A trailing segment
without terminator still forms a final line when non-empty, as in
Python. -/
def pySplitlinesGo : List Char → List Char → Bool → List (List Char)
  | [], acc, _ => if acc.isEmpty then [] else [acc.reverse]
  | c :: rest, acc, skipLf =>
    if skipLf && c == '\n' then pySplitlinesGo rest acc false
    else if c == '\r' then acc.reverse :: pySplitlinesGo rest [] true
    else if isLineTerm c then acc.reverse :: pySplitlinesGo rest [] false
    else pySplitlinesGo rest (c :: acc) false

/-- Python str.splitlines (config.py line 109 iterates over it). -/
def pySplitlines (s : List Char) : List (List Char) :=
  pySplitlinesGo s [] false

/-- Python str.strip() with no argument: remove leading and trailing
whitespace (config.py lines 113, 117, 119 use line.strip()). -/
def pyStrip (s : List Char) : List Char :=
  ((s.dropWhile isPySpace).reverse.dropWhile isPySpace).reverse

/-- Tail of the directive-matching regex after an optional comment
marker: a run of whitespace followed by the literal key.  Together with
lineMatches this decides Python re.match of the pattern
caret backslash-s-star (hash backslash-s-star)? escaped-key
backslash-s-star equals? backslash-s-star dot-star (config.py line 105)
on a line, for lines free of line terminators - the only lines the loop
ever tests, since they come from str.splitlines.  On such a line the
trailing part of the pattern matches any remainder, so matching reduces
to the prefix condition decided here. -/
def matchAfterHash (key : List Char) : List Char → Bool
  | [] => key.isPrefixOf []
  | c :: cs => key.isPrefixOf (c :: cs) || (isPySpace c && matchAfterHash key cs)

/-- Whether a (terminator-free) line matches the directive pattern of
config.py line 105 for the given key: optional leading whitespace, an
optional comment marker followed by optional whitespace, then the key;
anything may follow. -/
def lineMatches (key : List Char) : List Char → Bool
  | [] => key.isPrefixOf []
  | c :: cs =>
    key.isPrefixOf (c :: cs) || (c == '#' && matchAfterHash key cs) ||
    (isPySpace c && lineMatches key cs)

/-- The canonical replacement line built at config.py line 107:
the key, a space, an equals sign, a space, then the value. -/
def newLine (key value : List Char) : List Char :=
  key ++ ' ' :: '=' :: ' ' :: value

/-- A duplicate directive line disabled at config.py line 117:
a comment marker, a space, then the stripped original line. -/
def commentOut (line : List Char) : List Char :=
  '#' :: ' ' :: pyStrip line

/-- The provenance comment appended at config.py line 125 when the key
was not found.  Note the leading newline character inside the appended
string, exactly as in the source f-string. -/
def provLine (ts : List Char) : List Char :=
  '\n' :: ("# Added by gitlab-upgrade-helper ".data ++ ts)

/-- Result of the line scan of config.py lines 100-121: the rewritten
lines, whether a first match was replaced, and how many duplicate lines
were commented out. -/
structure LoopResult where
  lines : List (List Char)
  found : Bool
  dups : Nat
deriving DecidableEq, Repr

/-- The scan over the document lines (config.py lines 109-121): the
first line matching the key is replaced by the canonical line, every
later matching line is commented out, all other lines pass through
unchanged. -/
def patchLoop (key value : List Char) : Bool → List (List Char) → LoopResult
  | found, [] => ⟨[], found, 0⟩
  | found, line :: rest =>
    if lineMatches key line then
      if found then
        let r := patchLoop key value found rest
        ⟨commentOut line :: r.lines, r.found, r.dups + 1⟩
      else
        let r := patchLoop key value true rest
        ⟨newLine key value :: r.lines, r.found, r.dups⟩
    else
      let r := patchLoop key value found rest
      ⟨line :: r.lines, r.found, r.dups⟩

/-- Python "\n".join(lines) + "\n" as built at config.py line 129
(and again at line 238). -/
def joinNl : List (List Char) → List Char
  | [] => ['\n']
  | [l] => l ++ ['\n']
  | l :: ls => l ++ '\n' :: joinNl ls

/-- Outcome of the patch, as the spec names it: the first match was
replaced, or the setting was appended at the end. -/
inductive PatchOutcome where
  | Replaced
  | Appended
deriving DecidableEq, Repr

/-- Result of the pure patch transformation: the final modified_lines
list, the serialized content of config.py line 129, the found flag and
the number of duplicate lines commented out. -/
structure PatchResult where
  lines : List (List Char)
  content : List Char
  found : Bool
  dups : Nat
deriving DecidableEq, Repr

/-- Outcome reported by the patch: Replaced when a matching line was
found (config.py line 114), Appended otherwise (lines 124-127). -/
def PatchResult.outcome (r : PatchResult) : PatchOutcome :=
  if r.found then .Replaced else .Appended

/-- The pure text transformation of modify_gitlab_rb_setting
(config.py lines 100-129): split the document, run the replacement
scan, append the provenance comment and the canonical line when no
match was found, and re-join with a final newline.  The timestamp of
datetime.now().isoformat() at line 125 is the explicit ts parameter. -/
def modifySetting (original key value ts : List Char) : PatchResult :=
  let r := patchLoop key value false (pySplitlines original)
  let ls := if r.found then r.lines else r.lines ++ [provLine ts, newLine key value]
  ⟨ls, joinNl ls, r.found, r.dups⟩

/-- The provenance header built at config.py line 237: an opening bare
comment line, the generation-marker line carrying the timestamp, the
template basename line, the variables basename line, and a closing bare
comment line. -/
def renderHeader (ts tb vb : List Char) : List Char :=
  "#\n# Generated by gitlab-helper apply-template on ".data ++ ts ++
  "\n# Template: ".data ++ tb ++ "\n# Variables: ".data ++ vb ++ "\n#\n".data

/-- The final rendered document of config.py line 238: the header, the
body produced by the template engine, and one appended newline. -/
def renderFinal (body tb vb ts : List Char) : List Char :=
  renderHeader ts tb vb ++ body ++ ['\n']

/-- State of the YAML variables file as seen by the loader of config.py
lines 201-215: missing, present but an empty document (safe_load gives
None, normalized to an empty mapping at lines 204-205), present with a
parsed mapping, or present with unparsable syntax. -/
inductive YamlFile where
  | absent
  | emptyDoc
  | mapping (m : List (List Char × List Char))
  | malformed

/-- State of the Jinja template as seen by config.py lines 219-247:
missing, failing to evaluate, or rendering each variable mapping to a
body.  The engine itself is an external collaborator; its output is
abstracted as the function carried by the ok constructor. -/
inductive TemplateFile where
  | absent
  | evalErr
  | ok (render : List (List Char × List Char) → List Char)

/-- Which distinct failure branch of render_template_locally was taken.
The Python function returns None on every one of them; the branches are
distinguished by the exception handler taken and the message logged
(config.py lines 207-215, 242-247). -/
inductive RenderErr where
  | varsFileNotFound
  | varsYamlError
  | templateNotFound
  | templateError
deriving DecidableEq, Repr

/-- The variable-loading step of render_template_locally (config.py
lines 201-215): an absent file raises FileNotFoundError (line 207), an
empty document normalizes to the empty mapping (lines 204-205), and
unparsable syntax raises yaml.YAMLError (line 210). -/
def loadVars : YamlFile → Except RenderErr (List (List Char × List Char))
  | .absent => .error .varsFileNotFound
  | .emptyDoc => .ok []
  | .mapping m => .ok m
  | .malformed => .error .varsYamlError

/-- render_template_locally (config.py lines 186-247) with the
filesystem and engine abstracted: load the variables, then evaluate the
template, then assemble header plus body plus trailing newline
(lines 237-238).  tb and vb are the template and variable-file
basenames, ts the generation timestamp. -/
def render_template_locally (vars : YamlFile) (tpl : TemplateFile)
    (tb vb ts : List Char) : Except RenderErr (List Char) :=
  match loadVars vars with
  | .error e => .error e
  | .ok m =>
    match tpl with
    | .absent => .error .templateNotFound
    | .evalErr => .error .templateError
    | .ok f => .ok (renderFinal (f m) tb vb ts)

/-- The remote files a run can touch, each an optional content: the
canonical /etc/gitlab/gitlab.rb, its timestamped backup, and the
download and upload temp files under /tmp.  All four paths are fixed
for a run (config.py lines 17, 64, 82, 137). -/
structure RemoteFS where
  canonical : Option (List Char)
  backup : Option (List Char)
  tmpDown : Option (List Char)
  tmpUp : Option (List Char)
deriving DecidableEq, Repr

/-- Success or failure of each remote command of a run, supplied by the
transport oracle.  A command that fails leaves the remote files as they
were; content-sensitive commands (cp, mv, get) additionally require
their source file to exist. -/
structure StepOutcomes where
  connOk : Bool
  backupCpOk : Bool
  downCpOk : Bool
  downChownOk : Bool
  downGetOk : Bool
  downRmOk : Bool
  putOk : Bool
  upChownOk : Bool
  upChmodOk : Bool
  upMvOk : Bool
  restoreMvOk : Bool
  reconfigureOk : Bool
deriving DecidableEq, Repr

/-- The oracle in which every remote command succeeds. -/
def allOk : StepOutcomes :=
  ⟨true, true, true, true, true, true, true, true, true, true, true, true⟩

/-- Observable outcome of one pipeline run: the boolean returned to the
caller, the final remote files, how many compensating restores were
attempted, and whether the critical manual-intervention condition of
config.py line 153 (or 328) was reported. -/
structure RunTrace where
  success : Bool
  fs : RemoteFS
  restoreAttempts : Nat
  critical : Bool
deriving DecidableEq, Repr

/-- The compensating action of config.py lines 144-156 (and 320-331):
on upload failure, and only when a backup was requested, attempt one
mv of the backup onto the canonical path; if that mv itself fails,
report the critical manual-intervention condition; always return
failure. -/
def restoreAndFail (fs : RemoteFS) (o : StepOutcomes) (create_backup : Bool) : RunTrace :=
  if create_backup then
    if o.restoreMvOk && fs.backup.isSome then
      ⟨false, { fs with canonical := fs.backup, backup := none }, 1, false⟩
    else
      ⟨false, fs, 1, true⟩
  else ⟨false, fs, 0, false⟩

/-- The shared upload-then-reconfigure tail of both pipelines
(config.py lines 132-176 and 308-349): put the new content at the
upload temp path, chown and chmod it, mv it onto the canonical path,
falling into the compensating restore on any failure; then optionally
run gitlab-ctl reconfigure, whose non-zero exit fails the run even
though the file is already replaced. -/
def uploadAndFinish (fs : RemoteFS) (o : StepOutcomes) (content : List Char)
    (create_backup run_reconfigure : Bool) : RunTrace :=
  if !o.putOk then restoreAndFail fs o create_backup
  else
    let fs1 := { fs with tmpUp := some content }
    if !o.upChownOk then restoreAndFail fs1 o create_backup
    else if !o.upChmodOk then restoreAndFail fs1 o create_backup
    else if !(o.upMvOk && fs1.tmpUp.isSome) then restoreAndFail fs1 o create_backup
    else
      let fs2 := { fs1 with canonical := fs1.tmpUp, tmpUp := none }
      if run_reconfigure && !o.reconfigureOk then ⟨false, fs2, 0, false⟩
      else ⟨true, fs2, 0, false⟩

/-- The Setting Patcher pipeline modify_gitlab_rb_setting (config.py
lines 47-184) over the remote-file model: liveness check, optional
backup (cp canonical to backup path, lines 62-72), privileged download
(cp to temp, chown, get, rm, lines 75-95), the pure patch, then the
shared upload tail.  The local variable timestamp is assigned only
inside the backup branch (line 63); when create_backup is false,
building the download temp path at line 82 raises NameError, which the
broad except at line 91 turns into a failed run before any download
side effect. -/
def modify_gitlab_rb_setting (fs0 : RemoteFS) (o : StepOutcomes)
    (key value ts : List Char) (create_backup run_reconfigure : Bool) : RunTrace :=
  if !o.connOk then ⟨false, fs0, 0, false⟩
  else if create_backup && !(o.backupCpOk && fs0.canonical.isSome) then
    ⟨false, fs0, 0, false⟩
  else
    let fs1 := if create_backup then { fs0 with backup := fs0.canonical } else fs0
    if !create_backup then ⟨false, fs1, 0, false⟩
    else if !(o.downCpOk && fs1.canonical.isSome) then ⟨false, fs1, 0, false⟩
    else
      let fs2 := { fs1 with tmpDown := fs1.canonical }
      if !o.downChownOk then ⟨false, fs2, 0, false⟩
      else if !(o.downGetOk && fs2.tmpDown.isSome) then ⟨false, fs2, 0, false⟩
      else
        let original := fs2.tmpDown.getD []
        if !o.downRmOk then ⟨false, fs2, 0, false⟩
        else
          let fs3 := { fs2 with tmpDown := none }
          uploadAndFinish fs3 o (modifySetting original key value ts).content
            create_backup run_reconfigure

/-- The Template Applier pipeline apply_gitlab_rb_template (config.py
lines 249-357) over the remote-file model: the locally rendered content
is computed before any connection (line 277) and is passed here as an
Option; none aborts immediately.  Then liveness check, optional backup,
and the shared upload tail.  Here the timestamp is assigned
unconditionally (line 290), so no NameError arises without a backup. -/
def apply_gitlab_rb_template (fs0 : RemoteFS) (o : StepOutcomes)
    (rendered : Option (List Char)) (create_backup run_reconfigure : Bool) : RunTrace :=
  match rendered with
  | none => ⟨false, fs0, 0, false⟩
  | some content =>
    if !o.connOk then ⟨false, fs0, 0, false⟩
    else if create_backup && !(o.backupCpOk && fs0.canonical.isSome) then
      ⟨false, fs0, 0, false⟩
    else
      let fs1 := if create_backup then { fs0 with backup := fs0.canonical } else fs0
      uploadAndFinish fs1 o content create_backup run_reconfigure

/-- The apostrophe character, used in the Ruby-syntax example values of
the end-to-end scenarios. -/
def apos : Char := Char.ofNat 39

/-- How the scan rewrites a line once a first match has already been
replaced: a matching line is commented out, any other line passes
through (config.py lines 115-121). -/
def disableDup (key : List Char) (l : List Char) : List Char :=
  if lineMatches key l then commentOut l else l

/-- How the scan rewrites a line when exactly one line of the document
matches: the matching line becomes the canonical line, any other line
passes through. -/
def replaceMatch (key value : List Char) (l : List Char) : List Char :=
  if lineMatches key l then newLine key value else l

/-- A line whose first non-whitespace character is the comment marker:
the disabled form of a directive. -/
def isCommented (l : List Char) : Bool :=
  match l.dropWhile isPySpace with
  | '#' :: _ => true
  | _ => false

/-- A live matching occurrence: a line that matches the key and is not
in disabled (commented) form. -/
def liveMatch (key : List Char) (l : List Char) : Bool :=
  lineMatches key l && !(isCommented l)

/-- Whether a text ends with exactly one trailing newline character:
its last character is a newline and the character before it, when
present, is not. -/
def endsWithExactlyOneNewline (s : List Char) : Bool :=
  s.getLast? == some '\n' && !(s.dropLast.getLast? == some '\n')

/-- Timestamp used by the concrete witness runs. -/
def exTs : List Char := "2026-10-12T00:00:00".data

/-- Document of end-to-end scenario 1. -/
def exDoc1 : List Char :=
  "# external_url ".data ++ apos :: "old".data ++ [apos, '\n']

/-- Key of end-to-end scenario 1. -/
def exKey1 : List Char := "external_url".data

/-- Value of end-to-end scenario 1, quoted for Ruby syntax. -/
def exVal1 : List Char := apos :: "http://new".data ++ [apos]

/-- Key of end-to-end scenario 2. -/
def exKey2 : List Char :=
  "gitlab_rails[".data ++ apos :: "time_zone".data ++ [apos, ']']

/-- Value of end-to-end scenario 2. -/
def exVal2 : List Char := apos :: "UTC".data ++ [apos]

lemma isLineTerm_elim {c : Char} (h : isLineTerm c = false) :
    (c == '\n') = false ∧ (c == '\r') = false := by
  simp only [isLineTerm, Bool.or_eq_false_iff] at h
  exact ⟨h.1.1.1.1.1.1.1.1.1, h.1.1.1.1.1.1.1.1.2⟩

lemma pySplitlinesGo_keep {c : Char} (h : isLineTerm c = false)
    (rest acc : List Char) (skip : Bool) :
    pySplitlinesGo (c :: rest) acc skip = pySplitlinesGo rest (c :: acc) false := by
  obtain ⟨h1, h2⟩ := isLineTerm_elim h
  simp [pySplitlinesGo, h, h1, h2]

lemma pySplitlinesGo_nl (rest acc : List Char) :
    pySplitlinesGo ('\n' :: rest) acc false = acc.reverse :: pySplitlinesGo rest [] false := by
  simp [pySplitlinesGo, isLineTerm]

lemma pySplitlinesGo_append (rest : List Char) :
    ∀ (l acc : List Char), (∀ c ∈ l, isLineTerm c = false) →
      pySplitlinesGo (l ++ '\n' :: rest) acc false =
        (acc.reverse ++ l) :: pySplitlinesGo rest [] false
  | [], acc, _ => by simpa using pySplitlinesGo_nl rest acc
  | c :: l, acc, h => by
    have hc : isLineTerm c = false := h c (List.mem_cons_self c l)
    have ih := pySplitlinesGo_append rest l (c :: acc)
      (fun d hd => h d (List.mem_cons_of_mem c hd))
    rw [List.cons_append, pySplitlinesGo_keep hc, ih]
    simp

lemma pySplitlines_append (l rest : List Char) (h : ∀ c ∈ l, isLineTerm c = false) :
    pySplitlines (l ++ '\n' :: rest) = l :: pySplitlines rest := by
  simpa [pySplitlines] using pySplitlinesGo_append rest l [] h

lemma pySplitlines_joinNl :
    ∀ ls : List (List Char), ls ≠ [] → (∀ l ∈ ls, ∀ c ∈ l, isLineTerm c = false) →
      pySplitlines (joinNl ls) = ls
  | [], h, _ => absurd rfl h
  | [l], _, h => by
    have hl : ∀ c ∈ l, isLineTerm c = false := h l (List.mem_singleton_self l)
    have := pySplitlines_append l [] hl
    simpa [joinNl, pySplitlines, pySplitlinesGo] using this
  | l :: l2 :: ls, _, h => by
    have hl : ∀ c ∈ l, isLineTerm c = false := h l (List.mem_cons_self l _)
    have ih := pySplitlines_joinNl (l2 :: ls) (List.cons_ne_nil l2 ls)
      (fun m hm => h m (List.mem_cons_of_mem l hm))
    rw [show joinNl (l :: l2 :: ls) = l ++ '\n' :: joinNl (l2 :: ls) from rfl,
      pySplitlines_append l _ hl, ih]

lemma pySplitlinesGo_term_free :
    ∀ (n : Nat) (s acc : List Char) (skip : Bool), s.length ≤ n →
      (∀ c ∈ acc, isLineTerm c = false) →
      ∀ l ∈ pySplitlinesGo s acc skip, ∀ c ∈ l, isLineTerm c = false := by
  intro n
  induction n with
  | zero =>
    intro s acc skip hs hacc l hl c hc
    have : s = [] := List.length_eq_zero.mp (Nat.le_zero.mp hs)
    subst this
    simp only [pySplitlinesGo] at hl
    split at hl
    · simp at hl
    · rw [List.mem_singleton] at hl
      subst hl
      exact hacc c (List.mem_reverse.mp hc)
  | succ n ih =>
    intro s acc skip hs hacc l hl c hc
    match s with
    | [] =>
      simp only [pySplitlinesGo] at hl
      split at hl
      · simp at hl
      · rw [List.mem_singleton] at hl
        subst hl
        exact hacc c (List.mem_reverse.mp hc)
    | d :: rest =>
      have hrest : rest.length ≤ n := by simpa using hs
      simp only [pySplitlinesGo] at hl
      split at hl
      · exact ih rest acc false hrest hacc l hl c hc
      · split at hl
        · rcases List.mem_cons.mp hl with h1 | h1
          · subst h1
            exact hacc c (List.mem_reverse.mp hc)
          · exact ih rest [] true hrest (by simp) l h1 c hc
        · split at hl
          · rcases List.mem_cons.mp hl with h1 | h1
            · subst h1
              exact hacc c (List.mem_reverse.mp hc)
            · exact ih rest [] false hrest (by simp) l h1 c hc
          · refine ih rest (d :: acc) false hrest ?_ l hl c hc
            intro e he
            rcases List.mem_cons.mp he with h1 | h1
            · subst h1
              rename_i hterm
              simpa using hterm
            · exact hacc e h1

lemma pySplitlines_term_free (s : List Char) :
    ∀ l ∈ pySplitlines s, ∀ c ∈ l, isLineTerm c = false :=
  pySplitlinesGo_term_free s.length s [] false le_rfl (by simp)

lemma patchLoop_found (key value : List Char) :
    ∀ L : List (List Char),
      patchLoop key value true L =
        ⟨L.map (disableDup key), true, L.countP (lineMatches key)⟩
  | [] => by simp [patchLoop]
  | l :: L => by
    by_cases h : lineMatches key l = true
    · simp [patchLoop, h, patchLoop_found key value L, disableDup,
        List.countP_cons]
    · rw [Bool.not_eq_true] at h
      simp [patchLoop, h, patchLoop_found key value L, disableDup,
        List.countP_cons]

lemma patchLoop_none (key value : List Char) :
    ∀ L : List (List Char), (∀ l ∈ L, lineMatches key l = false) →
      patchLoop key value false L = ⟨L, false, 0⟩
  | [], _ => by simp [patchLoop]
  | l :: L, h => by
    have hl : lineMatches key l = false := h l (List.mem_cons_self l L)
    have ih := patchLoop_none key value L (fun m hm => h m (List.mem_cons_of_mem l hm))
    simp [patchLoop, hl, ih]

lemma patchLoop_split (key value : List Char) :
    ∀ (A : List (List Char)) (m : List Char) (B : List (List Char)),
      (∀ l ∈ A, lineMatches key l = false) → lineMatches key m = true →
      patchLoop key value false (A ++ m :: B) =
        ⟨A ++ newLine key value :: B.map (disableDup key), true,
          B.countP (lineMatches key)⟩
  | [], m, B, _, hm => by
    simp [patchLoop, hm, patchLoop_found key value B]
  | a :: A, m, B, hA, hm => by
    have ha : lineMatches key a = false := hA a (List.mem_cons_self a A)
    have ih := patchLoop_split key value A m B
      (fun l hl => hA l (List.mem_cons_of_mem a hl)) hm
    simp [patchLoop, ha, ih]

lemma exists_first_match (key : List Char) :
    ∀ L : List (List Char), L.countP (lineMatches key) ≠ 0 →
      ∃ A m B, L = A ++ m :: B ∧ (∀ l ∈ A, lineMatches key l = false) ∧
        lineMatches key m = true ∧
        B.countP (lineMatches key) + 1 = L.countP (lineMatches key)
  | [], h => absurd (by simp) h
  | l :: L, h => by
    by_cases hl : lineMatches key l = true
    · exact ⟨[], l, L, by simp, by simp, hl, by simp [List.countP_cons, hl]⟩
    · rw [Bool.not_eq_true] at hl
      have hL : L.countP (lineMatches key) ≠ 0 := by
        simpa [List.countP_cons, hl] using h
      obtain ⟨A, m, B, hsplit, hA, hm, hcount⟩ := exists_first_match key L hL
      refine ⟨l :: A, m, B, by simp [hsplit], ?_, hm, ?_⟩
      · intro x hx
        rcases List.mem_cons.mp hx with h1 | h1
        · subst h1; exact hl
        · exact hA x h1
      · simp [List.countP_cons, hl, hcount]

lemma lineMatches_newLine (key value : List Char) :
    lineMatches key (newLine key value) = true := by
  have hpre : key.isPrefixOf (key ++ ' ' :: '=' :: ' ' :: value) = true := by
    rw [List.isPrefixOf_iff_prefix]
    exact List.prefix_append key _
  match hk : key with
  | [] => simp [newLine, lineMatches]
  | k :: ks =>
    rw [newLine, List.cons_append, lineMatches]
    rw [← List.cons_append, hpre]
    simp

lemma isCommented_commentOut (l : List Char) :
    isCommented (commentOut l) = true := by
  simp [isCommented, commentOut, List.dropWhile, isPySpace]

lemma liveMatch_commentOut (key l : List Char) :
    liveMatch key (commentOut l) = false := by
  simp [liveMatch, isCommented_commentOut]

lemma liveMatch_of_not_match {key l : List Char} (h : lineMatches key l = false) :
    liveMatch key l = false := by
  simp [liveMatch, h]

lemma map_replaceMatch_none (key value : List Char) :
    ∀ A : List (List Char), (∀ l ∈ A, lineMatches key l = false) →
      A.map (replaceMatch key value) = A
  | [], _ => rfl
  | a :: A, h => by
    have ha : lineMatches key a = false := h a (List.mem_cons_self a A)
    have ih := map_replaceMatch_none key value A (fun l hl => h l (List.mem_cons_of_mem a hl))
    simp [replaceMatch, ha, ih]

lemma map_disableDup_none (key : List Char) :
    ∀ A : List (List Char), (∀ l ∈ A, lineMatches key l = false) →
      A.map (disableDup key) = A
  | [], _ => rfl
  | a :: A, h => by
    have ha : lineMatches key a = false := h a (List.mem_cons_self a A)
    have ih := map_disableDup_none key A (fun l hl => h l (List.mem_cons_of_mem a hl))
    simp [disableDup, ha, ih]

lemma joinNl_cons_ne_nil (l : List Char) (ls : List (List Char)) (h : ls ≠ []) :
    joinNl (l :: ls) = l ++ '\n' :: joinNl ls := by
  cases ls with
  | nil => exact absurd rfl h
  | cons x xs => rfl

lemma live_count_le_one (key value : List Char) (A B : List (List Char))
    (hA : ∀ l ∈ A, lineMatches key l = false) :
    (A ++ newLine key value :: B.map (disableDup key)).countP (liveMatch key) ≤ 1 := by
  rw [List.countP_append, List.countP_cons]
  have h1 : A.countP (liveMatch key) = 0 :=
    List.countP_eq_zero.mpr (fun l hl => by
      simp [liveMatch_of_not_match (hA l hl)])
  have h2 : (B.map (disableDup key)).countP (liveMatch key) = 0 := by
    refine List.countP_eq_zero.mpr ?_
    intro l hl
    obtain ⟨b, _, rfl⟩ := List.mem_map.mp hl
    by_cases hb : lineMatches key b = true
    · simp [disableDup, hb, liveMatch_commentOut]
    · rw [Bool.not_eq_true] at hb
      simp [disableDup, hb, liveMatch_of_not_match hb]
  rw [h1, h2]
  split <;> omega

/-- Claim C1: for every document containing exactly one line matching
key K, the patch replaces that line with the canonical line K = V,
leaves every other line byte-identical and in its original order, and
reports outcome Replaced. -/
theorem C1_patch_replaces_unique_match (D key value ts : List Char)
    (h : (pySplitlines D).countP (lineMatches key) = 1) :
    (modifySetting D key value ts).outcome = PatchOutcome.Replaced ∧
    (modifySetting D key value ts).dups = 0 ∧
    (modifySetting D key value ts).lines =
      (pySplitlines D).map (replaceMatch key value) ∧
    (modifySetting D key value ts).content =
      joinNl ((pySplitlines D).map (replaceMatch key value)) := by
  obtain ⟨A, m, B, hsplit, hA, hm, hcount⟩ :=
    exists_first_match key (pySplitlines D) (by simp [h])
  rw [h] at hcount
  have hB0 : B.countP (lineMatches key) = 0 := by omega
  have hB : ∀ l ∈ B, lineMatches key l = false :=
    fun l hl => by simpa using List.countP_eq_zero.mp hB0 l hl
  have hloop := patchLoop_split key value A m B hA hm
  have hmap : (pySplitlines D).map (replaceMatch key value) =
      A ++ newLine key value :: B := by
    rw [hsplit, List.map_append, List.map_cons,
      map_replaceMatch_none key value A hA,
      map_replaceMatch_none key value B hB]
    simp [replaceMatch, hm]
  rw [hsplit] at hmap
  simp only [modifySetting]
  rw [hsplit, hloop]
  simp only [hmap, map_disableDup_none key B hB, PatchResult.outcome]
  simp [hB0]

/-- Claim C2 as stated is false; this is the amended form: when no line
of the document matches the key, the scan leaves every line unchanged
and the function appends two entries to modified_lines - the provenance
string, which itself begins with a newline character, and the canonical
line - so the serialized output extends the document by an empty
separator line, the provenance comment line, and the canonical line;
the outcome is Appended. -/
theorem C2_appended_block (D key value ts : List Char)
    (h : (pySplitlines D).countP (lineMatches key) = 0)
    (hkv : ∀ c ∈ newLine key value, isLineTerm c = false)
    (ht : ∀ c ∈ ts, isLineTerm c = false) :
    (modifySetting D key value ts).outcome = PatchOutcome.Appended ∧
    (modifySetting D key value ts).lines =
      pySplitlines D ++ [provLine ts, newLine key value] ∧
    pySplitlines (modifySetting D key value ts).content =
      pySplitlines D ++
        [[], "# Added by gitlab-upgrade-helper ".data ++ ts, newLine key value] := by
  have hD : ∀ l ∈ pySplitlines D, lineMatches key l = false :=
    fun l hl => by simpa using List.countP_eq_zero.mp h l hl
  have hloop := patchLoop_none key value (pySplitlines D) hD
  have hP : ∀ c ∈ "# Added by gitlab-upgrade-helper ".data ++ ts,
      isLineTerm c = false := by
    have hlit : ∀ c ∈ "# Added by gitlab-upgrade-helper ".data,
        isLineTerm c = false := by decide
    intro c hc
    rcases List.mem_append.mp hc with h1 | h1
    · exact hlit c h1
    · exact ht c h1
  have key1 : ∀ L : List (List Char), (∀ l ∈ L, ∀ c ∈ l, isLineTerm c = false) →
      pySplitlines (joinNl (L ++ [provLine ts, newLine key value])) =
        L ++ [[], "# Added by gitlab-upgrade-helper ".data ++ ts,
          newLine key value] := by
    intro L
    induction L with
    | nil =>
      intro _
      have e1 : joinNl ([] ++ [provLine ts, newLine key value]) =
          [] ++ '\n' :: ("# Added by gitlab-upgrade-helper ".data ++ ts ++
            '\n' :: (newLine key value ++ ['\n'])) := by
        simp [joinNl, provLine]
      rw [e1, pySplitlines_append _ _ (by simp),
        show ("# Added by gitlab-upgrade-helper ".data ++ ts ++
            '\n' :: (newLine key value ++ ['\n'])) =
          ("# Added by gitlab-upgrade-helper ".data ++ ts) ++
            '\n' :: (newLine key value ++ ['\n']) by simp,
        pySplitlines_append _ _ hP,
        show (newLine key value ++ ['\n']) = newLine key value ++ '\n' :: [] by simp,
        pySplitlines_append _ _ hkv]
      simp [pySplitlines, pySplitlinesGo]
    | cons a L ih =>
      intro hmem
      have ha : ∀ c ∈ a, isLineTerm c = false := hmem a (List.mem_cons_self a L)
      have ih2 := ih (fun l hl => hmem l (List.mem_cons_of_mem a hl))
      rw [List.cons_append, joinNl_cons_ne_nil a _ (by simp),
        pySplitlines_append _ _ ha, ih2]
      simp
  refine ⟨?_, ?_, ?_⟩
  · simp [modifySetting, hloop, PatchResult.outcome]
  · simp [modifySetting, hloop]
  · have := key1 (pySplitlines D) (fun l hl => pySplitlines_term_free D l hl)
    simpa [modifySetting, hloop] using this

/-- Claim C2 as stated is refuted at the empty document of end-to-end
scenario 2: the claim says the result is the provenance comment line
directly followed by the canonical line, but the appended provenance
entry begins with a newline character (config.py line 125), so the
output starts with a blank line before the provenance comment. -/
theorem C2_counterexample :
    (modifySetting [] exKey2 exVal2 exTs).content =
      '\n' :: ("# Added by gitlab-upgrade-helper ".data ++ exTs ++
        '\n' :: (newLine exKey2 exVal2 ++ ['\n'])) ∧
    (modifySetting [] exKey2 exVal2 exTs).content ≠
      "# Added by gitlab-upgrade-helper ".data ++ exTs ++
        '\n' :: (newLine exKey2 exVal2 ++ ['\n']) := by
  exact ⟨by decide, by decide⟩

/-- Witness for C2_appended_block at end-to-end scenario 2. -/
theorem C2_witness :
    ((pySplitlines ([] : List Char)).countP (lineMatches exKey2) = 0) ∧
    (modifySetting [] exKey2 exVal2 exTs).outcome = PatchOutcome.Appended ∧
    pySplitlines (modifySetting [] exKey2 exVal2 exTs).content =
      [[], "# Added by gitlab-upgrade-helper ".data ++ exTs,
        newLine exKey2 exVal2] := by
  have h := C2_appended_block [] exKey2 exVal2 exTs (by decide) (by decide) (by decide)
  exact ⟨by decide, h.1, by rw [h.2.2]; decide⟩

/-- Witness for C1_patch_replaces_unique_match at end-to-end
scenario 1. -/
theorem C1_witness :
    ((pySplitlines exDoc1).countP (lineMatches exKey1) = 1) ∧
    (modifySetting exDoc1 exKey1 exVal1 exTs).outcome = PatchOutcome.Replaced ∧
    (modifySetting exDoc1 exKey1 exVal1 exTs).content =
      "external_url = ".data ++ apos :: "http://new".data ++ [apos, '\n'] := by
  have h := C1_patch_replaces_unique_match exDoc1 exKey1 exVal1 exTs (by decide)
  exact ⟨by decide, h.1, by rw [h.2.2.2]; decide⟩

/-- Claim C3: for a document with more than one line matching the key,
the first matching line (in document order) becomes the canonical line,
every later matching line becomes a comment-prefixed version of its
original trimmed content, the number of DuplicateDisabled events is one
less than the number of matching lines, the outcome is Replaced, and at
most one line of the resulting document is a live (uncommented)
matching occurrence. -/
theorem C3_duplicates_disabled (D key value ts : List Char)
    (h : 1 < (pySplitlines D).countP (lineMatches key)) :
    ∃ A m B, pySplitlines D = A ++ m :: B ∧
      (∀ l ∈ A, lineMatches key l = false) ∧ lineMatches key m = true ∧
      (modifySetting D key value ts).lines =
        A ++ newLine key value :: B.map (disableDup key) ∧
      (modifySetting D key value ts).outcome = PatchOutcome.Replaced ∧
      (modifySetting D key value ts).dups =
        (pySplitlines D).countP (lineMatches key) - 1 ∧
      (modifySetting D key value ts).lines.countP (liveMatch key) ≤ 1 := by
  obtain ⟨A, m, B, hsplit, hA, hm, hcount⟩ :=
    exists_first_match key (pySplitlines D) (by omega)
  have hloop := patchLoop_split key value A m B hA hm
  have hlines : (modifySetting D key value ts).lines =
      A ++ newLine key value :: B.map (disableDup key) := by
    simp only [modifySetting]
    rw [hsplit, hloop]
    simp
  have hdups : (modifySetting D key value ts).dups = B.countP (lineMatches key) := by
    simp only [modifySetting]
    rw [hsplit, hloop]
  have hout : (modifySetting D key value ts).outcome = PatchOutcome.Replaced := by
    simp only [modifySetting]
    rw [hsplit, hloop]
    simp [PatchResult.outcome]
  refine ⟨A, m, B, hsplit, hA, hm, hlines, hout, ?_, ?_⟩
  · rw [hdups]
    omega
  · rw [hlines]
    exact live_count_le_one key value A B hA

/-- Witness for C3_duplicates_disabled on a document with three
matching lines and one unrelated line. -/
theorem C3_witness :
    (1 < (pySplitlines "k a\nother\nk b\nk c\n".data).countP
      (lineMatches "k".data)) ∧
    (∃ A m B, pySplitlines "k a\nother\nk b\nk c\n".data = A ++ m :: B ∧
      (∀ l ∈ A, lineMatches "k".data l = false) ∧
      lineMatches "k".data m = true ∧
      (modifySetting "k a\nother\nk b\nk c\n".data "k".data "v".data exTs).lines =
        A ++ newLine "k".data "v".data :: B.map (disableDup "k".data) ∧
      (modifySetting "k a\nother\nk b\nk c\n".data "k".data "v".data
        exTs).outcome = PatchOutcome.Replaced ∧
      (modifySetting "k a\nother\nk b\nk c\n".data "k".data "v".data exTs).dups =
        (pySplitlines "k a\nother\nk b\nk c\n".data).countP
          (lineMatches "k".data) - 1 ∧
      (modifySetting "k a\nother\nk b\nk c\n".data "k".data "v".data
        exTs).lines.countP (liveMatch "k".data) ≤ 1) := by
  exact ⟨by decide,
    C3_duplicates_disabled "k a\nother\nk b\nk c\n".data "k".data "v".data exTs
      (by decide)⟩

/-- Claim C6 as stated is false; this is the amended form: the patch is
idempotent on the Replaced path provided the replaced occurrence is the
only matching line (no DuplicateDisabled events) and the canonical line
contains no line-terminator character. -/
theorem C6_idempotent_unique_match (D key value ts ts2 : List Char)
    (h : (pySplitlines D).countP (lineMatches key) = 1)
    (hkv : ∀ c ∈ newLine key value, isLineTerm c = false) :
    (modifySetting (modifySetting D key value ts).content key value ts2).content =
      (modifySetting D key value ts).content := by
  obtain ⟨A, m, B, hsplit, hA, hm, hcount⟩ :=
    exists_first_match key (pySplitlines D) (by simp [h])
  rw [h] at hcount
  have hB0 : B.countP (lineMatches key) = 0 := by omega
  have hB : ∀ l ∈ B, lineMatches key l = false :=
    fun l hl => by simpa using List.countP_eq_zero.mp hB0 l hl
  have hloop := patchLoop_split key value A m B hA hm
  have hcontent1 : (modifySetting D key value ts).content =
      joinNl (A ++ newLine key value :: B) := by
    simp only [modifySetting]
    rw [hsplit, hloop]
    simp [map_disableDup_none key B hB]
  have hTF : ∀ l ∈ A ++ newLine key value :: B, ∀ c ∈ l, isLineTerm c = false := by
    intro l hl
    rcases List.mem_append.mp hl with h1 | h1
    · exact pySplitlines_term_free D l (hsplit ▸ List.mem_append_left _ h1)
    · rcases List.mem_cons.mp h1 with h2 | h2
      · subst h2
        exact hkv
      · exact pySplitlines_term_free D l
          (hsplit ▸ List.mem_append_right _ (List.mem_cons_of_mem m h2))
  have hresplit : pySplitlines (joinNl (A ++ newLine key value :: B)) =
      A ++ newLine key value :: B :=
    pySplitlines_joinNl _ (by simp) hTF
  have hloop2 := patchLoop_split key value A (newLine key value) B hA
    (lineMatches_newLine key value)
  rw [hcontent1]
  simp only [modifySetting, hresplit, hloop2]
  simp [map_disableDup_none key B hB]

/-- Claim C6 as stated is refuted on a document with two matching
lines: the first application takes the Replaced path and comments out
the duplicate, and the second application comments out that
already-commented duplicate a second time, changing the document
again. -/
theorem C6_counterexample :
    (modifySetting (modifySetting "k a\nk b\n".data "k".data "v".data exTs).content
        "k".data "v".data exTs).content ≠
      (modifySetting "k a\nk b\n".data "k".data "v".data exTs).content := by
  decide

/-- Witness for C6_idempotent_unique_match on a document whose single
matching line is a commented directive. -/
theorem C6_witness :
    ((pySplitlines "# k old\n".data).countP (lineMatches "k".data) = 1) ∧
    (∀ c ∈ newLine "k".data "v".data, isLineTerm c = false) ∧
    (modifySetting (modifySetting "# k old\n".data "k".data "v".data exTs).content
        "k".data "v".data exTs).content =
      (modifySetting "# k old\n".data "k".data "v".data exTs).content := by
  exact ⟨by decide, by decide,
    C6_idempotent_unique_match "# k old\n".data "k".data "v".data exTs exTs
      (by decide) (by decide)⟩

lemma pyStrip_subset (l : List Char) (c : Char) (h : c ∈ pyStrip l) : c ∈ l := by
  simp only [pyStrip] at h
  rw [List.mem_reverse] at h
  have h2 := (List.dropWhile_sublist isPySpace).subset h
  rw [List.mem_reverse] at h2
  exact (List.dropWhile_sublist isPySpace).subset h2

lemma patchLoop_length (key value : List Char) :
    ∀ (f : Bool) (L : List (List Char)),
      (patchLoop key value f L).lines.length = L.length
  | _, [] => rfl
  | f, l :: L => by
    by_cases h : lineMatches key l = true
    · cases f <;>
        simp [patchLoop, h, patchLoop_length key value true L,
          patchLoop_length key value false L]
    · rw [Bool.not_eq_true] at h
      simp [patchLoop, h, patchLoop_length key value f L]

lemma getLast?_cons_of_ne_nil {x : List Char} {xs : List (List Char)} (h : xs ≠ []) :
    (x :: xs).getLast? = xs.getLast? := by
  rw [show x :: xs = [x] ++ xs from rfl, List.getLast?_append_of_ne_nil [x] h]

lemma patchLoop_getLast (key value : List Char) :
    ∀ (L : List (List Char)) (f : Bool), L ≠ [] →
      ∃ l, L.getLast? = some l ∧
        ((patchLoop key value f L).lines.getLast? = some l ∨
         (patchLoop key value f L).lines.getLast? = some (newLine key value) ∨
         (patchLoop key value f L).lines.getLast? = some (commentOut l))
  | [], _, h => absurd rfl h
  | [l], f, _ => by
    refine ⟨l, rfl, ?_⟩
    by_cases hm : lineMatches key l = true
    · cases f
      · simp [patchLoop, hm]
      · simp [patchLoop, hm]
    · rw [Bool.not_eq_true] at hm
      simp [patchLoop, hm]
  | l :: l2 :: L, f, _ => by
    have hne : ∀ f' : Bool, (patchLoop key value f' (l2 :: L)).lines ≠ [] := by
      intro f' e
      have := patchLoop_length key value f' (l2 :: L)
      rw [e] at this
      simp at this
    by_cases hm : lineMatches key l = true
    · cases f
      · obtain ⟨x, hx, hd⟩ := patchLoop_getLast key value (l2 :: L) true (by simp)
        refine ⟨x, by rw [List.getLast?_cons_cons]; exact hx, ?_⟩
        have hl : (patchLoop key value false (l :: l2 :: L)).lines =
            newLine key value :: (patchLoop key value true (l2 :: L)).lines := by
          simp [patchLoop, hm]
        rw [hl, getLast?_cons_of_ne_nil (hne true)]
        exact hd
      · obtain ⟨x, hx, hd⟩ := patchLoop_getLast key value (l2 :: L) true (by simp)
        refine ⟨x, by rw [List.getLast?_cons_cons]; exact hx, ?_⟩
        have hl : (patchLoop key value true (l :: l2 :: L)).lines =
            commentOut l :: (patchLoop key value true (l2 :: L)).lines := by
          simp [patchLoop, hm]
        rw [hl, getLast?_cons_of_ne_nil (hne true)]
        exact hd
    · rw [Bool.not_eq_true] at hm
      obtain ⟨x, hx, hd⟩ := patchLoop_getLast key value (l2 :: L) f (by simp)
      refine ⟨x, by rw [List.getLast?_cons_cons]; exact hx, ?_⟩
      have hl : (patchLoop key value f (l :: l2 :: L)).lines =
          l :: (patchLoop key value f (l2 :: L)).lines := by
        simp [patchLoop, hm]
      rw [hl, getLast?_cons_of_ne_nil (hne f)]
      exact hd

lemma endsOne_concat (p : List Char) :
    endsWithExactlyOneNewline (p ++ ['\n']) = !(p.getLast? == some '\n') := by
  simp only [endsWithExactlyOneNewline, List.getLast?_concat, List.dropLast_concat]
  simp

lemma endsOne_append_left (a s : List Char) (h : 2 ≤ s.length) :
    endsWithExactlyOneNewline (a ++ s) = endsWithExactlyOneNewline s := by
  have hs : s ≠ [] := by
    intro e
    subst e
    simp at h
  have hds : s.dropLast ≠ [] := by
    intro e
    have hlen := List.length_dropLast s
    rw [e] at hlen
    simp at hlen
    omega
  simp only [endsWithExactlyOneNewline,
    List.getLast?_append_of_ne_nil a hs, List.dropLast_append_of_ne_nil a hs,
    List.getLast?_append_of_ne_nil a hds]

lemma joinNl_eq_concat : ∀ ls : List (List Char), ∃ p, joinNl ls = p ++ ['\n']
  | [] => ⟨[], rfl⟩
  | [l] => ⟨l, rfl⟩
  | l :: l2 :: ls => by
    obtain ⟨p, hp⟩ := joinNl_eq_concat (l2 :: ls)
    refine ⟨l ++ '\n' :: p, ?_⟩
    rw [joinNl_cons_ne_nil l _ (by simp), hp]
    simp

lemma joinNl_ne_nil (ls : List (List Char)) : joinNl ls ≠ [] := by
  obtain ⟨p, hp⟩ := joinNl_eq_concat ls
  rw [hp]
  simp

lemma joinNl_length_two : ∀ (ls : List (List Char)) (l : List Char),
    ls.getLast? = some l → l ≠ [] → 2 ≤ (joinNl ls).length
  | [], l, h, _ => by simp at h
  | [x], l, h, hl => by
    have hx : x = l := by simpa using h
    subst hx
    have h0 : x.length ≠ 0 := by simpa using hl
    simp [joinNl]
    omega
  | x :: y :: ls, l, _, _ => by
    rw [joinNl_cons_ne_nil x _ (by simp)]
    have hlen : 1 ≤ (joinNl (y :: ls)).length :=
      List.length_pos.mpr (joinNl_ne_nil (y :: ls))
    simp
    omega

lemma endsOne_joinNl : ∀ (ls : List (List Char)) (l : List Char),
    ls.getLast? = some l → l ≠ [] → (∀ c ∈ l, isLineTerm c = false) →
    endsWithExactlyOneNewline (joinNl ls) = true
  | [], l, h, _, _ => by simp at h
  | [x], l, h, hl, hTF => by
    have hx : x = l := by simpa using h
    subst hx
    rw [show joinNl [x] = x ++ ['\n'] from rfl, endsOne_concat]
    have hgl := List.getLast?_eq_getLast x hl
    have hmem := List.getLast_mem hl
    have hterm : isLineTerm (x.getLast hl) = false := hTF _ hmem
    have hne : x.getLast hl ≠ '\n' := by
      intro e
      rw [e] at hterm
      simp [isLineTerm] at hterm
    simp [hgl, hne]
  | x :: y :: ls, l, h, hl, hTF => by
    have h2 : (y :: ls).getLast? = some l := by
      rw [← List.getLast?_cons_cons]
      exact h
    have hlen1 : 2 ≤ ('\n' :: joinNl (y :: ls)).length := by
      have := List.length_pos.mpr (joinNl_ne_nil (y :: ls))
      simp
      omega
    rw [joinNl_cons_ne_nil x _ (by simp),
      show x ++ '\n' :: joinNl (y :: ls) = x ++ ('\n' :: joinNl (y :: ls)) from rfl,
      endsOne_append_left x _ hlen1,
      show ('\n' :: joinNl (y :: ls)) = ['\n'] ++ joinNl (y :: ls) from rfl,
      endsOne_append_left ['\n'] _ (joinNl_length_two (y :: ls) l h2 hl)]
    exact endsOne_joinNl (y :: ls) l h2 hl hTF

/-- Claim C7 as stated is false; this is the amended form: the output
of the patch and of the renderer always ends with at least one newline;
it ends with exactly one trailing newline provided the input document
has no trailing empty line (its last line, if any, is non-empty), the
canonical line is free of line terminators, and - for the renderer -
the engine-rendered body is non-empty and does not itself end with a
newline. -/
theorem C7_trailing_newline (D key value ts body tb vb : List Char)
    (hkv : ∀ c ∈ newLine key value, isLineTerm c = false)
    (hD : (pySplitlines D).getLast? ≠ some ([] : List Char))
    (hb1 : body ≠ []) (hb2 : body.getLast? ≠ some '\n') :
    (∃ p, (modifySetting D key value ts).content = p ++ ['\n']) ∧
    endsWithExactlyOneNewline (modifySetting D key value ts).content = true ∧
    (∃ q, renderFinal body tb vb ts = q ++ ['\n']) ∧
    endsWithExactlyOneNewline (renderFinal body tb vb ts) = true := by
  have hlines : ∃ lcand, (modifySetting D key value ts).lines.getLast? = some lcand ∧
      lcand ≠ [] ∧ (∀ c ∈ lcand, isLineTerm c = false) := by
    by_cases hf : (patchLoop key value false (pySplitlines D)).found = true
    · have hLne : pySplitlines D ≠ [] := by
        intro e
        rw [e] at hf
        simp [patchLoop] at hf
      obtain ⟨l, hlast, hdisj⟩ := patchLoop_getLast key value (pySplitlines D) false hLne
      have hlne : l ≠ [] := fun e => hD (e ▸ hlast)
      have hltf : ∀ c ∈ l, isLineTerm c = false :=
        pySplitlines_term_free D l (List.mem_of_mem_getLast? (by simp [hlast]))
      have hml : (modifySetting D key value ts).lines =
          (patchLoop key value false (pySplitlines D)).lines := by
        simp [modifySetting, hf]
      rcases hdisj with h1 | h1 | h1
      · exact ⟨l, by rw [hml]; exact h1, hlne, hltf⟩
      · exact ⟨newLine key value, by rw [hml]; exact h1, by simp [newLine], hkv⟩
      · refine ⟨commentOut l, by rw [hml]; exact h1, by simp [commentOut], ?_⟩
        intro c hc
        rcases List.mem_cons.mp hc with h2 | h2
        · subst h2
          decide
        rcases List.mem_cons.mp h2 with h3 | h3
        · subst h3
          decide
        · exact hltf c (pyStrip_subset l c h3)
    · have hml : (modifySetting D key value ts).lines =
          (patchLoop key value false (pySplitlines D)).lines ++
            [provLine ts, newLine key value] := by
        simp [modifySetting, hf]
      refine ⟨newLine key value, ?_, by simp [newLine], hkv⟩
      rw [hml, show (patchLoop key value false (pySplitlines D)).lines ++
          [provLine ts, newLine key value] =
          ((patchLoop key value false (pySplitlines D)).lines ++ [provLine ts]) ++
            [newLine key value] by simp,
        List.getLast?_concat]
  obtain ⟨lcand, hlast, hlne, hltf⟩ := hlines
  have hcontent : (modifySetting D key value ts).content =
      joinNl (modifySetting D key value ts).lines := rfl
  refine ⟨?_, ?_, ?_, ?_⟩
  · rw [hcontent]
    exact joinNl_eq_concat _
  · rw [hcontent]
    exact endsOne_joinNl _ lcand hlast hlne hltf
  · exact ⟨renderHeader ts tb vb ++ body, by simp [renderFinal]⟩
  · rw [show renderFinal body tb vb ts = (renderHeader ts tb vb ++ body) ++ ['\n']
        by simp [renderFinal],
      endsOne_concat, List.getLast?_append_of_ne_nil _ hb1]
    simp only [Bool.not_eq_true']
    rw [beq_eq_false_iff_ne]
    exact hb2

/-- Claim C7 as stated is refuted on a document that ends with an empty
line (two trailing newlines): the patch keeps that empty line, so the
output ends with two trailing newlines, not exactly one. -/
theorem C7_counterexample :
    (modifySetting "k x\n\n".data "k".data "v".data exTs).content = "k = v\n\n".data ∧
    endsWithExactlyOneNewline
      (modifySetting "k x\n\n".data "k".data "v".data exTs).content = false := by
  exact ⟨by decide, by decide⟩

/-- Witness for C7_trailing_newline on a concrete document, key, value
and rendered body. -/
theorem C7_witness :
    (∀ c ∈ newLine "k".data "v".data, isLineTerm c = false) ∧
    ((pySplitlines "k x\n".data).getLast? ≠ some ([] : List Char)) ∧
    ("BODY".data ≠ []) ∧ ("BODY".data.getLast? ≠ some '\n') ∧
    endsWithExactlyOneNewline
      (modifySetting "k x\n".data "k".data "v".data exTs).content = true ∧
    endsWithExactlyOneNewline
      (renderFinal "BODY".data "t.j2".data "v.yml".data exTs) = true := by
  have h := C7_trailing_newline "k x\n".data "k".data "v".data exTs "BODY".data
    "t.j2".data "v.yml".data (by decide) (by decide) (by decide) (by decide)
  exact ⟨by decide, by decide, by decide, by decide, h.2.1, h.2.2.2⟩

/-- Claim C8 as stated is false; this is the amended form: for a
successful render the output decomposes into five comment lines
prepended to the rendered body - an opening bare comment marker, one
line carrying both the generation marker and the timestamp, the
template basename line, the variable-file basename line, and a closing
bare comment marker - provided the basenames and the timestamp are free
of line terminators. -/
theorem C8_provenance_header (body tb vb ts : List Char)
    (htb : ∀ c ∈ tb, isLineTerm c = false)
    (hvb : ∀ c ∈ vb, isLineTerm c = false)
    (hts : ∀ c ∈ ts, isLineTerm c = false) :
    pySplitlines (renderFinal body tb vb ts) =
      "#".data ::
      ("# Generated by gitlab-helper apply-template on ".data ++ ts) ::
      ("# Template: ".data ++ tb) ::
      ("# Variables: ".data ++ vb) ::
      "#".data ::
      pySplitlines (body ++ ['\n']) := by
  have hG : ∀ c ∈ "# Generated by gitlab-helper apply-template on ".data ++ ts,
      isLineTerm c = false := by
    have hlit : ∀ c ∈ "# Generated by gitlab-helper apply-template on ".data,
        isLineTerm c = false := by decide
    intro c hc
    rcases List.mem_append.mp hc with h1 | h1
    · exact hlit c h1
    · exact hts c h1
  have hT : ∀ c ∈ "# Template: ".data ++ tb, isLineTerm c = false := by
    have hlit : ∀ c ∈ "# Template: ".data, isLineTerm c = false := by decide
    intro c hc
    rcases List.mem_append.mp hc with h1 | h1
    · exact hlit c h1
    · exact htb c h1
  have hV : ∀ c ∈ "# Variables: ".data ++ vb, isLineTerm c = false := by
    have hlit : ∀ c ∈ "# Variables: ".data, isLineTerm c = false := by decide
    intro c hc
    rcases List.mem_append.mp hc with h1 | h1
    · exact hlit c h1
    · exact hvb c h1
  have e : renderFinal body tb vb ts =
      "#".data ++ '\n' ::
        (("# Generated by gitlab-helper apply-template on ".data ++ ts) ++ '\n' ::
          (("# Template: ".data ++ tb) ++ '\n' ::
            (("# Variables: ".data ++ vb) ++ '\n' ::
              ("#".data ++ '\n' :: (body ++ ['\n']))))) := by
    simp only [renderFinal, renderHeader]
    simp [List.append_assoc]
  rw [e, pySplitlines_append "#".data _ (by decide),
    pySplitlines_append _ _ hG,
    pySplitlines_append _ _ hT,
    pySplitlines_append _ _ hV,
    pySplitlines_append "#".data _ (by decide)]

/-- Claim C8 as stated is refuted on a concrete render: the claim says
the header consists of exactly four comment lines (generation marker,
timestamp, template basename, variable basename), so with a one-line
body the output would have five lines with the body on line five; in
fact the output has six lines, the marker and the timestamp share the
second line, line five is a bare closing comment, and the body is on
line six. -/
theorem C8_counterexample :
    (pySplitlines (renderFinal "BODY".data "t.j2".data "v.yml".data "TS".data)).length ≠ 5 ∧
    (pySplitlines (renderFinal "BODY".data "t.j2".data "v.yml".data "TS".data)).length = 6 ∧
    (pySplitlines (renderFinal "BODY".data "t.j2".data "v.yml".data "TS".data)).get? 1 =
      some "# Generated by gitlab-helper apply-template on TS".data ∧
    (pySplitlines (renderFinal "BODY".data "t.j2".data "v.yml".data "TS".data)).get? 4 =
      some "#".data ∧
    (pySplitlines (renderFinal "BODY".data "t.j2".data "v.yml".data "TS".data)).get? 5 =
      some "BODY".data := by
  exact ⟨by decide, by decide, by decide, by decide, by decide⟩

/-- Witness for C8_provenance_header on a concrete body, basenames and
timestamp. -/
theorem C8_witness :
    (∀ c ∈ "t.j2".data, isLineTerm c = false) ∧
    (∀ c ∈ "v.yml".data, isLineTerm c = false) ∧
    (∀ c ∈ exTs, isLineTerm c = false) ∧
    pySplitlines (renderFinal "BODY".data "t.j2".data "v.yml".data exTs) =
      ["#".data, "# Generated by gitlab-helper apply-template on ".data ++ exTs,
        "# Template: ".data ++ "t.j2".data, "# Variables: ".data ++ "v.yml".data,
        "#".data, "BODY".data] := by
  have h := C8_provenance_header "BODY".data "t.j2".data "v.yml".data exTs
    (by decide) (by decide) (by decide)
  exact ⟨by decide, by decide, by decide, by rw [h]; decide⟩

/-- Claim C9 as stated is false (an absent variable file does not
succeed); this is the amended form: an empty variable file succeeds and
behaves exactly as the empty mapping; an absent variable file fails on
the variables-file-not-found branch; a malformed variable file fails on
the YAML-error branch; a missing template fails on the
template-not-found branch; and the two variable-file failure branches
are distinct from the template-not-found branch. -/
theorem C9_vars_file_handling :
    (∀ f : List (List Char × List Char) → List Char, ∀ tb vb ts : List Char,
      render_template_locally YamlFile.emptyDoc (TemplateFile.ok f) tb vb ts =
          render_template_locally (YamlFile.mapping []) (TemplateFile.ok f) tb vb ts ∧
        render_template_locally YamlFile.emptyDoc (TemplateFile.ok f) tb vb ts =
          Except.ok (renderFinal (f []) tb vb ts)) ∧
    (∀ (tpl : TemplateFile) (tb vb ts : List Char),
      render_template_locally YamlFile.absent tpl tb vb ts =
        Except.error RenderErr.varsFileNotFound) ∧
    (∀ (tpl : TemplateFile) (tb vb ts : List Char),
      render_template_locally YamlFile.malformed tpl tb vb ts =
        Except.error RenderErr.varsYamlError) ∧
    (∀ (m : List (List Char × List Char)) (tb vb ts : List Char),
      render_template_locally (YamlFile.mapping m) TemplateFile.absent tb vb ts =
        Except.error RenderErr.templateNotFound) ∧
    RenderErr.varsFileNotFound ≠ RenderErr.templateNotFound ∧
    RenderErr.varsYamlError ≠ RenderErr.templateNotFound := by
  exact ⟨fun f tb vb ts => ⟨rfl, rfl⟩, fun tpl tb vb ts => rfl,
    fun tpl tb vb ts => rfl, fun m tb vb ts => rfl, by decide, by decide⟩

/-- Claim C9 as stated is refuted at a concrete input: with a present,
rendering template and an absent variable file, the render fails on the
variables-file-not-found branch instead of succeeding with an empty
mapping. -/
theorem C9_counterexample :
    render_template_locally YamlFile.absent
        (TemplateFile.ok (fun _ => "BODY".data)) "t.j2".data "v.yml".data exTs =
      Except.error RenderErr.varsFileNotFound ∧
    (render_template_locally YamlFile.absent
        (TemplateFile.ok (fun _ => "BODY".data)) "t.j2".data "v.yml".data
        exTs).isOk = false := by
  exact ⟨rfl, rfl⟩

/-- Claim C4 describes the intended behaviour, and the code violates
it: with create_backup = false the local variable timestamp (assigned
only at config.py line 63, inside the backup branch) is unbound, so
building the download temp path at line 82 raises NameError and the
broad handler at line 91 fails the run - before any fetch, patch or
upload - even on the all-success oracle.  The temp-file naming of the
fetch step does depend on a value produced only by the backup step. -/
theorem C4_no_backup_run_fails (fs0 : RemoteFS) (key value ts : List Char)
    (rc : Bool) :
    modify_gitlab_rb_setting fs0 allOk key value ts false rc =
      ⟨false, fs0, 0, false⟩ := rfl

/-- Claim C5: when the upload block fails after a backup was created,
the run is reported failed, exactly one compensating restore is
attempted, the final canonical content equals the pre-run content, and
a failure of the restore itself raises the critical
manual-intervention condition instead of being swallowed. -/
theorem C5_upload_failure_restore (fs0 : RemoteFS) (o : StepOutcomes)
    (c0 key value ts : List Char) (rc : Bool)
    (hcan : fs0.canonical = some c0)
    (hconn : o.connOk = true) (hbk : o.backupCpOk = true)
    (hd1 : o.downCpOk = true) (hd2 : o.downChownOk = true)
    (hd3 : o.downGetOk = true) (hd4 : o.downRmOk = true)
    (hup : (o.putOk && o.upChownOk && o.upChmodOk && o.upMvOk) = false) :
    (modify_gitlab_rb_setting fs0 o key value ts true rc).success = false ∧
    (modify_gitlab_rb_setting fs0 o key value ts true rc).restoreAttempts = 1 ∧
    (modify_gitlab_rb_setting fs0 o key value ts true rc).fs.canonical = some c0 ∧
    (o.restoreMvOk = false →
      (modify_gitlab_rb_setting fs0 o key value ts true rc).critical = true) := by
  by_cases hput : o.putOk = true <;> by_cases hchown : o.upChownOk = true <;>
    by_cases hchmod : o.upChmodOk = true <;> by_cases hmv : o.upMvOk = true <;>
    by_cases hrm : o.restoreMvOk = true <;>
    simp_all [modify_gitlab_rb_setting, uploadAndFinish, restoreAndFail]

/-- Witness for C5_upload_failure_restore: the upload mv fails after a
successful backup and download; the restore succeeds, the run fails,
and the canonical file holds the pre-run content. -/
theorem C5_witness :
    ((⟨some "orig".data, none, none, none⟩ : RemoteFS).canonical =
      some "orig".data) ∧
    (({ allOk with upMvOk := false } : StepOutcomes).putOk &&
      ({ allOk with upMvOk := false } : StepOutcomes).upChownOk &&
      ({ allOk with upMvOk := false } : StepOutcomes).upChmodOk &&
      ({ allOk with upMvOk := false } : StepOutcomes).upMvOk) = false ∧
    (modify_gitlab_rb_setting ⟨some "orig".data, none, none, none⟩
      { allOk with upMvOk := false } "k".data "v".data exTs true false).success =
      false ∧
    (modify_gitlab_rb_setting ⟨some "orig".data, none, none, none⟩
      { allOk with upMvOk := false } "k".data "v".data exTs true
      false).restoreAttempts = 1 ∧
    (modify_gitlab_rb_setting ⟨some "orig".data, none, none, none⟩
      { allOk with upMvOk := false } "k".data "v".data exTs true
      false).fs.canonical = some "orig".data := by
  have h := C5_upload_failure_restore ⟨some "orig".data, none, none, none⟩
    { allOk with upMvOk := false } "orig".data "k".data "v".data exTs false
    rfl rfl rfl rfl rfl rfl rfl (by decide)
  exact ⟨rfl, by decide, h.1, h.2.1, h.2.2.1⟩

lemma uploadAndFinish_backup (fs : RemoteFS) (o : StepOutcomes)
    (content c0 : List Char) (rc : Bool) (hb : fs.backup = some c0) :
    ((uploadAndFinish fs o content true rc).fs.backup = some c0 ∨
      ((uploadAndFinish fs o content true rc).fs.backup = none ∧
       (uploadAndFinish fs o content true rc).fs.canonical = some c0 ∧
       (uploadAndFinish fs o content true rc).restoreAttempts = 1)) := by
  by_cases hput : o.putOk = true <;> by_cases h2 : o.upChownOk = true <;>
    by_cases h3 : o.upChmodOk = true <;> by_cases h4 : o.upMvOk = true <;>
    by_cases h5 : o.restoreMvOk = true <;>
    simp_all [uploadAndFinish, restoreAndFail, apply_ite]

/-- Claim C10 as stated is false; this is the amended form: in either
pipeline, once the backup is created its content is never overwritten
or discarded - after the run, either the backup file still holds the
pre-run canonical content untouched, or the single compensating
restore has moved it (removing the file at the backup path while
placing exactly the pre-run content back at the canonical path). -/
theorem C10_backup_preservation (fs0 : RemoteFS) (o : StepOutcomes)
    (c0 key value ts content : List Char) (rc : Bool)
    (hcan : fs0.canonical = some c0)
    (hconn : o.connOk = true) (hbk : o.backupCpOk = true) :
    ((modify_gitlab_rb_setting fs0 o key value ts true rc).fs.backup = some c0 ∨
      ((modify_gitlab_rb_setting fs0 o key value ts true rc).fs.backup = none ∧
       (modify_gitlab_rb_setting fs0 o key value ts true rc).fs.canonical = some c0 ∧
       (modify_gitlab_rb_setting fs0 o key value ts true rc).restoreAttempts = 1)) ∧
    ((apply_gitlab_rb_template fs0 o (some content) true rc).fs.backup = some c0 ∨
      ((apply_gitlab_rb_template fs0 o (some content) true rc).fs.backup = none ∧
       (apply_gitlab_rb_template fs0 o (some content) true rc).fs.canonical = some c0 ∧
       (apply_gitlab_rb_template fs0 o (some content) true rc).restoreAttempts = 1)) := by
  constructor
  · by_cases hd1 : o.downCpOk = true <;> by_cases hd2 : o.downChownOk = true <;>
      by_cases hd3 : o.downGetOk = true <;> by_cases hd4 : o.downRmOk = true <;>
      simp_all [modify_gitlab_rb_setting]
    all_goals exact uploadAndFinish_backup _ o _ c0 rc (by simp)
  · simp_all [apply_gitlab_rb_template]
    exact uploadAndFinish_backup _ o _ c0 rc (by simp)

/-- Claim C10 as stated is refuted on a concrete run of the Setting
Patcher in which the upload mv fails and the restore succeeds: the
restore is a mv of the backup onto the canonical path, so after the run
no file remains at the backup path, contradicting the claim that no
later operation of the run removes the file at the backup path. -/
theorem C10_counterexample :
    (modify_gitlab_rb_setting ⟨some "orig".data, none, none, none⟩
      { allOk with upMvOk := false } "k".data "v".data exTs true
      false).fs.backup = none ∧
    (modify_gitlab_rb_setting ⟨some "orig".data, none, none, none⟩
      { allOk with upMvOk := false } "k".data "v".data exTs true
      false).restoreAttempts = 1 ∧
    (modify_gitlab_rb_setting ⟨some "orig".data, none, none, none⟩
      { allOk with upMvOk := false } "k".data "v".data exTs true
      false).fs.canonical = some "orig".data := by
  exact ⟨by decide, by decide, by decide⟩

/-- Witness for C10_backup_preservation on a concrete pre-run state and
oracle. -/
theorem C10_witness :
    ((⟨some "orig".data, none, none, none⟩ : RemoteFS).canonical =
      some "orig".data) ∧
    (((modify_gitlab_rb_setting ⟨some "orig".data, none, none, none⟩ allOk
        "k".data "v".data exTs true false).fs.backup = some "orig".data ∨
      ((modify_gitlab_rb_setting ⟨some "orig".data, none, none, none⟩ allOk
        "k".data "v".data exTs true false).fs.backup = none ∧
       (modify_gitlab_rb_setting ⟨some "orig".data, none, none, none⟩ allOk
        "k".data "v".data exTs true false).fs.canonical = some "orig".data ∧
       (modify_gitlab_rb_setting ⟨some "orig".data, none, none, none⟩ allOk
        "k".data "v".data exTs true false).restoreAttempts = 1)) ∧
     ((apply_gitlab_rb_template ⟨some "orig".data, none, none, none⟩ allOk
        (some "C".data) true false).fs.backup = some "orig".data ∨
      ((apply_gitlab_rb_template ⟨some "orig".data, none, none, none⟩ allOk
        (some "C".data) true false).fs.backup = none ∧
       (apply_gitlab_rb_template ⟨some "orig".data, none, none, none⟩ allOk
        (some "C".data) true false).fs.canonical = some "orig".data ∧
       (apply_gitlab_rb_template ⟨some "orig".data, none, none, none⟩ allOk
        (some "C".data) true false).restoreAttempts = 1))) := by
  exact ⟨rfl, C10_backup_preservation ⟨some "orig".data, none, none, none⟩ allOk
    "orig".data "k".data "v".data exTs "C".data false rfl rfl rfl⟩
